import Mathlib

/-!
Verification of the context-registry component (ContextManager) of the
mcp-server repository, a shallow embedding of src/context-manager.ts.

The registry state is the JS Map backing ContextManager.contexts, modelled
as an insertion-ordered association list: Map.set updates an existing key
in place (keeping its position) and appends a fresh key at the end, and
Map.values iterates in that order.
-/

namespace MCP

/-- Types of contexts that can be registered (enum ContextType). -/
inductive ContextType where
  | dex
  | nft_marketplace
  | oracle
  | governance
  | social
  | identity
  | storage
deriving DecidableEq, Repr

/-- All values of the ContextType enumeration. -/
def ContextType.all : List ContextType :=
  [.dex, .nft_marketplace, .oracle, .governance, .social, .identity, .storage]

/-- Solana public keys enter the registry only as opaque identifiers, so we
model PublicKey by its base-58 string form. -/
abbrev PublicKey := String

/-- Context definition interface matching the YAML/JSON format
(interface ContextDefinition).  The schema field is a free-form mapping,
opaque to the registry, modelled as an association list of strings. -/
structure ContextDefinition where
  id : String
  name : String
  description : String
  type : ContextType
  capabilities : List String
  endpoint : Option String
  pubkey : Option String
  authRequired : Bool
  schema : Option (List (String × String))
deriving DecidableEq, Repr

/-- The ContextManager.contexts field: a JS Map from context id to
definition, as an insertion-ordered association list. -/
abbrev RegistryState := List (String × ContextDefinition)

/-- JS String.prototype.endsWith, on the character sequence (the byte-wise
core String.endsWith does not reduce in the kernel; on these ASCII names
suffix of the character list is the same relation). -/
def strEndsWith (s suffix : String) : Bool :=
  suffix.data.isSuffixOf s.data

/-- JS String.prototype.toLowerCase, on the character sequence; the
capability tags are ASCII, where characterwise Char.toLower agrees with
the JS lowering. -/
def strToLower (s : String) : String :=
  ⟨s.data.map Char.toLower⟩

/-- JS Map.get: first (and only) binding of the key, if any. -/
def mapGet (m : RegistryState) (k : String) : Option ContextDefinition :=
  match m with
  | [] => none
  | (k1, v1) :: rest => if k1 = k then some v1 else mapGet rest k

/-- JS Map.set: overwrite an existing binding in place, else append. -/
def mapSet (m : RegistryState) (k : String) (v : ContextDefinition) : RegistryState :=
  match m with
  | [] => [(k, v)]
  | (k1, v1) :: rest =>
    if k1 = k then (k, v) :: rest else (k1, v1) :: mapSet rest k v

/-- ContextManager.getContext: the definition stored under the id, or null
(here none) when absent. -/
def getContext (m : RegistryState) (id : String) : Option ContextDefinition :=
  mapGet m id

/-- ContextManager.getAllContexts: Array.from of Map.values, in insertion
order. -/
def getAllContexts (m : RegistryState) : List ContextDefinition :=
  m.map Prod.snd

/-- ContextManager.getContextsByType: all stored definitions whose type
field equals the argument. -/
def getContextsByType (m : RegistryState) (t : ContextType) : List ContextDefinition :=
  (getAllContexts m).filter (fun context => context.type = t)

/-- ContextManager.findContextsByCapabilities: the stored definitions for
which every requested capability string occurs, case-insensitively, among
the definition's capabilities. -/
def findContextsByCapabilities (m : RegistryState) (capabilities : List String) :
    List ContextDefinition :=
  (getAllContexts m).filter (fun context =>
    capabilities.all (fun cap =>
      context.capabilities.any (fun contextCap =>
        strToLower contextCap = strToLower cap)))

/-- The hard-coded public key built in registerContext. -/
def newContextId : PublicKey := "G6xptnrkj3Z3JegB3EqJPGqnVBKGLQXTqpEL9kHpMZN5"

/-- Body of the try block of ContextManager.registerContext; an Except
value stands for the possibility of a thrown error.  Every step of the
body (constructing the hard-coded PublicKey, Map.set, the info log) is
non-throwing, so the body always returns ok. -/
def registerContextTry (m : RegistryState) (contextDef : ContextDefinition)
    (_authority : PublicKey) : Except String (PublicKey × RegistryState) :=
  Except.ok (newContextId, mapSet m contextDef.id contextDef)

/-- ContextManager.registerContext: the try body with its catch handler,
which logs and returns null (here none), leaving the state unchanged. -/
def registerContext (m : RegistryState) (contextDef : ContextDefinition)
    (authority : PublicKey) : Option PublicKey × RegistryState :=
  match registerContextTry m contextDef authority with
  | Except.ok (k, m1) => (some k, m1)
  | Except.error _ => (none, m)

/-- ContextManager.checkPermission: the reference stub allows all access. -/
def checkPermission (_agentId : PublicKey) (_contextId : String) : Bool :=
  true

/-- One entry of fs.readdirSync for loadContexts: a file name together
with the outcome of reading and parsing its content (none when
readFileSync, JSON.parse or yaml.parse throws). -/
structure DescriptorFile where
  name : String
  parsed : Option ContextDefinition
deriving DecidableEq, Repr

/-- The extension test in the loadContexts loop. -/
def isDescriptorFile (name : String) : Bool :=
  strEndsWith name ".yaml" || strEndsWith name ".yml" || strEndsWith name ".json"

/-- Result of loadContexts: the populated map, the count logged by the
final info line (none when that line is never reached), whether the
missing-directory warning fired, and whether the catch block logged an
error. -/
structure LoadResult where
  contexts : RegistryState
  loggedCount : Option Nat
  warnedMissing : Bool
  loggedError : Bool
deriving DecidableEq, Repr

/-- The for-loop of loadContexts.  A file whose extension is recognized is
parsed and stored; a parse failure throws, which the surrounding try
reports as Bool false and ends the loop.  Unrecognized extensions are
skipped. -/
def loadLoop (files : List DescriptorFile) (m : RegistryState) (count : Nat) :
    RegistryState × Nat × Bool :=
  match files with
  | [] => (m, count, true)
  | f :: rest =>
    if isDescriptorFile f.name then
      match f.parsed with
      | some contextDef => loadLoop rest (mapSet m contextDef.id contextDef) (count + 1)
      | none => (m, count, false)
    else
      loadLoop rest m count

/-- ContextManager.loadContexts, run at construction.  The directory is
none when fs.existsSync is false: the warning fires and the map stays
empty.  Otherwise the loop runs over the directory listing; the loaded
count is logged only if no file threw. -/
def loadContexts (dir : Option (List DescriptorFile)) : LoadResult :=
  match dir with
  | none => ⟨[], none, true, false⟩
  | some files =>
    let r := loadLoop files [] 0
    ⟨r.1, if r.2.2 then some r.2.1 else none, false, !r.2.2⟩

/-- The recognized-extension entries of a directory listing. -/
def recognizedFiles (files : List DescriptorFile) : List DescriptorFile :=
  files.filter (fun f => isDescriptorFile f.name)

/-- The records parsed out of the recognized entries of a listing. -/
def parsedRecords (files : List DescriptorFile) : List ContextDefinition :=
  files.filterMap (fun f => if isDescriptorFile f.name then f.parsed else none)

/-- Folding Map.set over a list of records, as the load loop does. -/
def storeAll (m : RegistryState) (recs : List ContextDefinition) : RegistryState :=
  recs.foldl (fun acc r => mapSet acc r.id r) m

/-! Concrete records and files, drawn from the repository's own test
fixtures, used to instantiate the theorems below on closed inputs. -/

/-- A dex record carrying a mixed-case capability tag. -/
def tokenSwapsDef : ContextDefinition :=
  ⟨"jupiter-dex-v4", "Jupiter Aggregator", "A liquidity aggregator for Solana",
   ContextType.dex, ["Token_Swaps", "route_optimization"],
   some "https://quote-api.jup.ag/v4", none, false, none⟩

/-- An nft_marketplace record. -/
def magicEdenDef : ContextDefinition :=
  ⟨"magiceden-v2", "Magic Eden NFT Marketplace", "NFT marketplace on Solana",
   ContextType.nft_marketplace, ["nft_listing", "nft_buying"],
   some "https://api-mainnet.magiceden.io/v2", none, false, none⟩

/-- Two oracle records that share one id but differ in their fields. -/
def oracleDefA : ContextDefinition :=
  ⟨"pyth-oracle", "Pyth A", "first descriptor", ContextType.oracle,
   ["price_feeds"], none, none, false, none⟩

def oracleDefB : ContextDefinition :=
  ⟨"pyth-oracle", "Pyth B", "second descriptor", ContextType.oracle,
   ["price_feeds"], none, none, true, none⟩

/-- A descriptor file whose content fails to parse. -/
def malformedFile : DescriptorFile := ⟨"broken.json", none⟩

/-- Well-formed descriptor files. -/
def wellFormedFile : DescriptorFile := ⟨"magiceden.yaml", some magicEdenDef⟩

def tokenSwapsFile : DescriptorFile := ⟨"jupiter.yaml", some tokenSwapsDef⟩

/-- A file with an unrecognized extension. -/
def unrecognizedFile : DescriptorFile := ⟨"notes.txt", none⟩

/-- Two parseable files whose records collide on the same id. -/
def dupFileA : DescriptorFile := ⟨"pyth-a.json", some oracleDefA⟩

def dupFileB : DescriptorFile := ⟨"pyth-b.json", some oracleDefB⟩

lemma mapGet_mapSet_self (m : RegistryState) (k : String) (v : ContextDefinition) :
    mapGet (mapSet m k v) k = some v := by
  induction m with
  | nil => simp [mapSet, mapGet]
  | cons e rest ih =>
    obtain ⟨k1, v1⟩ := e
    by_cases h : k1 = k <;> simp [mapSet, mapGet, h, ih]

lemma mapGet_mapSet_ne (m : RegistryState) (k k1 : String) (v : ContextDefinition)
    (h : k1 ≠ k) : mapGet (mapSet m k v) k1 = mapGet m k1 := by
  have hks : ¬ (k = k1) := fun h1 => h h1.symm
  induction m with
  | nil => simp [mapSet, mapGet, hks]
  | cons e rest ih =>
    obtain ⟨k2, v2⟩ := e
    by_cases h2 : k2 = k
    · subst h2
      simp [mapSet, mapGet, hks]
    · by_cases h3 : k2 = k1
      · subst h3
        simp [mapSet, mapGet, h2]
      · simp [mapSet, mapGet, h2, h3, ih]

lemma mem_keys_mapSet (m : RegistryState) (k a : String) (v : ContextDefinition) :
    a ∈ (mapSet m k v).map Prod.fst ↔ a = k ∨ a ∈ m.map Prod.fst := by
  induction m with
  | nil => simp [mapSet]
  | cons e rest ih =>
    obtain ⟨k1, v1⟩ := e
    by_cases h : k1 = k
    · subst h; simp [mapSet]
    · simp [mapSet, h, ih]; tauto

lemma keys_nodup_mapSet (m : RegistryState) (k : String) (v : ContextDefinition)
    (h : (m.map Prod.fst).Nodup) : ((mapSet m k v).map Prod.fst).Nodup := by
  induction m with
  | nil => simp [mapSet]
  | cons e rest ih =>
    obtain ⟨k1, v1⟩ := e
    rw [List.map_cons, List.nodup_cons] at h
    by_cases h1 : k1 = k
    · subst h1
      have : mapSet ((k1, v1) :: rest) k1 v = (k1, v) :: rest := by simp [mapSet]
      rw [this, List.map_cons, List.nodup_cons]
      exact h
    · have hrest := ih h.2
      have : mapSet ((k1, v1) :: rest) k v = (k1, v1) :: mapSet rest k v := by
        simp [mapSet, h1]
      rw [this, List.map_cons, List.nodup_cons]
      refine ⟨fun hc => ?_, hrest⟩
      rcases (mem_keys_mapSet rest k k1 v).mp hc with h2 | h2
      · exact h1 h2
      · exact h.1 h2

lemma mapSet_length_absent (m : RegistryState) (k : String) (v : ContextDefinition)
    (h : mapGet m k = none) : (mapSet m k v).length = m.length + 1 := by
  induction m with
  | nil => simp [mapSet]
  | cons e rest ih =>
    obtain ⟨k1, v1⟩ := e
    by_cases h1 : k1 = k
    · simp [mapGet, h1] at h
    · simp only [mapGet, h1, if_false] at h
      simp [mapSet, h1, ih h]

lemma storeAll_length (recs : List ContextDefinition) (m : RegistryState)
    (habs : ∀ r ∈ recs, mapGet m r.id = none)
    (hnodup : (recs.map (fun r => r.id)).Nodup) :
    (storeAll m recs).length = m.length + recs.length := by
  induction recs generalizing m with
  | nil => simp [storeAll]
  | cons r rest ih =>
    simp only [List.map_cons, List.nodup_cons, List.mem_map] at hnodup
    have habs1 : ∀ r1 ∈ rest, mapGet (mapSet m r.id r) r1.id = none := by
      intro r1 h1
      rw [mapGet_mapSet_ne]
      · exact habs r1 (List.mem_cons_of_mem r h1)
      · intro hc
        exact hnodup.1 ⟨r1, h1, hc⟩
    have h2 : (storeAll (mapSet m r.id r) rest).length
        = (mapSet m r.id r).length + rest.length := ih (mapSet m r.id r) habs1 hnodup.2
    have h3 : (mapSet m r.id r).length = m.length + 1 :=
      mapSet_length_absent m r.id r (habs r (List.mem_cons_self r rest))
    simp only [storeAll, List.foldl_cons] at h2 ⊢
    rw [h2, h3, List.length_cons]
    omega

lemma loadLoop_ok (files : List DescriptorFile) (m : RegistryState) (count : Nat)
    (h : ∀ f ∈ files, isDescriptorFile f.name = true → f.parsed.isSome) :
    (loadLoop files m count).2.2 = true := by
  induction files generalizing m count with
  | nil => simp [loadLoop]
  | cons f rest ih =>
    by_cases h1 : isDescriptorFile f.name = true
    · have := h f (List.mem_cons_self f rest) h1
      match h2 : f.parsed with
      | some cd =>
        simp only [loadLoop, h1, if_true, h2]
        exact ih _ _ (fun g hg => h g (List.mem_cons_of_mem f hg))
      | none => simp [h2] at this
    · simp only [loadLoop, h1, if_false]
      exact ih _ _ (fun g hg => h g (List.mem_cons_of_mem f hg))

lemma loadLoop_state_count (files : List DescriptorFile) (m : RegistryState) (count : Nat)
    (h : ∀ f ∈ files, isDescriptorFile f.name = true → f.parsed.isSome) :
    (loadLoop files m count).1 = storeAll m (parsedRecords files)
    ∧ (loadLoop files m count).2.1 = count + (recognizedFiles files).length := by
  induction files generalizing m count with
  | nil => simp [loadLoop, storeAll, parsedRecords, recognizedFiles]
  | cons f rest ih =>
    by_cases h1 : isDescriptorFile f.name = true
    · have := h f (List.mem_cons_self f rest) h1
      match h2 : f.parsed with
      | some cd =>
        have ihr := ih (mapSet m cd.id cd) (count + 1)
          (fun g hg => h g (List.mem_cons_of_mem f hg))
        simp only [loadLoop, h1, if_true, h2]
        constructor
        · rw [ihr.1]
          simp [parsedRecords, storeAll, h1, h2]
        · rw [ihr.2]
          simp only [recognizedFiles, List.filter_cons, h1, if_true, List.length_cons]
          omega
      | none => simp [h2] at this
    · have ihr := ih m count (fun g hg => h g (List.mem_cons_of_mem f hg))
      have hred : loadLoop (f :: rest) m count = loadLoop rest m count := by
        simp [loadLoop, h1]
      rw [hred]
      constructor
      · rw [ihr.1]
        simp [parsedRecords, h1]
      · rw [ihr.2]
        simp [recognizedFiles, List.filter_cons, h1]

lemma loadLoop_append (pre suf : List DescriptorFile) (m : RegistryState) (count : Nat)
    (h : ∀ f ∈ pre, isDescriptorFile f.name = true → f.parsed.isSome) :
    loadLoop (pre ++ suf) m count
      = loadLoop suf (loadLoop pre m count).1 (loadLoop pre m count).2.1 := by
  induction pre generalizing m count with
  | nil => simp [loadLoop]
  | cons f rest ih =>
    by_cases h1 : isDescriptorFile f.name = true
    · have := h f (List.mem_cons_self f rest) h1
      match h2 : f.parsed with
      | some cd =>
        simp only [List.cons_append, loadLoop, h1, if_true, h2]
        exact ih _ _ (fun g hg => h g (List.mem_cons_of_mem f hg))
      | none => simp [h2] at this
    · simp only [List.cons_append, loadLoop, h1, if_false]
      exact ih _ _ (fun g hg => h g (List.mem_cons_of_mem f hg))

lemma parsedRecords_length (files : List DescriptorFile)
    (h : ∀ f ∈ files, isDescriptorFile f.name = true → f.parsed.isSome) :
    (parsedRecords files).length = (recognizedFiles files).length := by
  induction files with
  | nil => simp [parsedRecords, recognizedFiles]
  | cons f rest ih =>
    have ihr := ih (fun g hg => h g (List.mem_cons_of_mem f hg))
    by_cases h1 : isDescriptorFile f.name = true
    · have := h f (List.mem_cons_self f rest) h1
      match h2 : f.parsed with
      | some cd =>
        simp [parsedRecords, recognizedFiles, List.filter_cons, h1, h2] at ihr ⊢
        exact ihr
      | none => simp [h2] at this
    · simp [parsedRecords, recognizedFiles, List.filter_cons, h1] at ihr ⊢
      exact ihr

/-- Every stored record has a type that lands in exactly one filter class;
summing the class sizes over the whole enumeration recovers the total. -/
lemma filter_type_length_sum (l : List ContextDefinition) :
    (ContextType.all.map (fun t => (l.filter (fun r => r.type = t)).length)).sum
      = l.length := by
  induction l with
  | nil => simp [ContextType.all]
  | cons r rest ih =>
    cases h : r.type <;>
      simp_all [ContextType.all, List.filter_cons, h] <;> omega

/-- C1: findContextsByCapabilities returns exactly the stored records whose
capability set contains every requested capability under case-insensitive
comparison (conjunctive match); an empty request matches every record, and
a record with capability Token_Swaps matches a query for token_swaps. -/
theorem findByCapabilities_conjunctive_case_insensitive (m : RegistryState)
    (caps : List String) :
    (∀ r, r ∈ findContextsByCapabilities m caps ↔
        r ∈ getAllContexts m ∧
        ∀ cap ∈ caps, ∃ c ∈ r.capabilities, strToLower c = strToLower cap)
    ∧ findContextsByCapabilities m [] = getAllContexts m
    ∧ tokenSwapsDef ∈
        findContextsByCapabilities [(tokenSwapsDef.id, tokenSwapsDef)] ["token_swaps"] := by
  refine ⟨fun r => ?_, ?_, ?_⟩
  · simp [findContextsByCapabilities, List.mem_filter, List.all_eq_true, List.any_eq_true]
  · simp [findContextsByCapabilities]
  · decide

theorem findByCapabilities_witness :
    tokenSwapsDef ∈
      findContextsByCapabilities [(tokenSwapsDef.id, tokenSwapsDef)] ["token_swaps"] :=
  (findByCapabilities_conjunctive_case_insensitive
    [(tokenSwapsDef.id, tokenSwapsDef)] ["token_swaps"]).2.2

/-- C2: after registerContext succeeds, getContext on the registered id
returns the new record (overwriting any earlier record under that id), and
the registry keeps at most one binding per id. -/
theorem register_then_lookup_last_write_wins (m : RegistryState)
    (r : ContextDefinition) (a : PublicKey) :
    getContext (registerContext m r a).2 r.id = some r
    ∧ ((m.map Prod.fst).Nodup → ((registerContext m r a).2.map Prod.fst).Nodup) := by
  constructor
  · show getContext (mapSet m r.id r) r.id = some r
    exact mapGet_mapSet_self m r.id r
  · intro h
    exact keys_nodup_mapSet m r.id r h

theorem register_then_lookup_witness :
    getContext (registerContext [(oracleDefA.id, oracleDefA)] oracleDefB "auth").2
        oracleDefB.id = some oracleDefB
    ∧ ((registerContext [(oracleDefA.id, oracleDefA)] oracleDefB "auth").2.map
        Prod.fst).Nodup :=
  ⟨(register_then_lookup_last_write_wins [(oracleDefA.id, oracleDefA)] oracleDefB "auth").1,
   (register_then_lookup_last_write_wins [(oracleDefA.id, oracleDefA)] oracleDefB "auth").2
     (by decide)⟩

/-- C3 as stated is false: a directory holding the malformed broken.json
followed by the well-formed magiceden.yaml loads nothing, because the parse
error aborts the whole loop; the well-formed file is not loaded. -/
theorem parse_failure_skips_only_that_file_counterexample :
    ¬ (magicEdenDef ∈
        getAllContexts (loadContexts (some [malformedFile, wellFormedFile])).contexts) := by
  decide

/-- C3 amended: a parse failure aborts the directory scan; files processed
before the failing file stay loaded, no partial record is stored for the
failing file, the files after it are not loaded, and the error is logged. -/
theorem parse_failure_aborts_remaining_load (pre suf : List DescriptorFile)
    (bad : DescriptorFile)
    (hpre : ∀ f ∈ pre, isDescriptorFile f.name = true → f.parsed.isSome)
    (hbad1 : isDescriptorFile bad.name = true) (hbad2 : bad.parsed = none) :
    (loadContexts (some (pre ++ bad :: suf))).contexts = (loadContexts (some pre)).contexts
    ∧ (loadContexts (some (pre ++ bad :: suf))).loggedCount = none
    ∧ (loadContexts (some (pre ++ bad :: suf))).loggedError = true := by
  have hok := loadLoop_ok pre [] 0 hpre
  have h2 : loadLoop (pre ++ bad :: suf) [] 0
      = ((loadLoop pre [] 0).1, (loadLoop pre [] 0).2.1, false) := by
    rw [loadLoop_append pre (bad :: suf) [] 0 hpre]
    simp [loadLoop, hbad1, hbad2]
  refine ⟨?_, ?_, ?_⟩ <;> simp [loadContexts, h2, hok]

theorem parse_failure_aborts_witness :
    (loadContexts (some ([wellFormedFile] ++ malformedFile :: [tokenSwapsFile]))).contexts
      = (loadContexts (some [wellFormedFile])).contexts
    ∧ (loadContexts
        (some ([wellFormedFile] ++ malformedFile :: [tokenSwapsFile]))).loggedCount = none
    ∧ (loadContexts
        (some ([wellFormedFile] ++ malformedFile :: [tokenSwapsFile]))).loggedError = true :=
  parse_failure_aborts_remaining_load [wellFormedFile] [tokenSwapsFile] malformedFile
    (by decide) (by decide) rfl

/-- C4 as stated is false: two recognized, parseable files whose records
share one id are both counted (loaded count 2) but store a single record,
not two. -/
theorem initialize_count_counterexample :
    ¬ ((loadContexts (some [dupFileA, dupFileB])).contexts.length = 2)
    ∧ (loadContexts (some [dupFileA, dupFileB])).loggedCount = some 2 := by
  decide

/-- C4 amended: when every recognized file parses and the parsed records
carry pairwise-distinct ids, loadContexts stores exactly one record per
recognized file and logs that count; with duplicate ids the logged count
still counts files while later records overwrite earlier ones. -/
theorem initialize_stores_and_counts_recognized (files : List DescriptorFile)
    (hparse : ∀ f ∈ files, isDescriptorFile f.name = true → f.parsed.isSome)
    (hids : ((parsedRecords files).map (fun r => r.id)).Nodup) :
    (loadContexts (some files)).contexts.length = (recognizedFiles files).length
    ∧ (loadContexts (some files)).loggedCount
        = some ((recognizedFiles files).length) := by
  have hsc := loadLoop_state_count files [] 0 hparse
  have hok := loadLoop_ok files [] 0 hparse
  have habs : ∀ r ∈ parsedRecords files, mapGet [] r.id = none := by
    intro r _; rfl
  have hlen := storeAll_length (parsedRecords files) [] habs hids
  constructor
  · show (loadLoop files [] 0).1.length = _
    rw [hsc.1, hlen, parsedRecords_length files hparse]
    simp
  · show (if (loadLoop files [] 0).2.2 then some (loadLoop files [] 0).2.1 else none) = _
    rw [hok, hsc.2]
    simp

theorem initialize_stores_and_counts_witness :
    (loadContexts (some [wellFormedFile, unrecognizedFile, tokenSwapsFile])).contexts.length
      = 2
    ∧ (loadContexts (some [wellFormedFile, unrecognizedFile, tokenSwapsFile])).loggedCount
      = some 2 :=
  ⟨(initialize_stores_and_counts_recognized
      [wellFormedFile, unrecognizedFile, tokenSwapsFile] (by decide) (by decide)).1.trans
    (by decide),
   (initialize_stores_and_counts_recognized
      [wellFormedFile, unrecognizedFile, tokenSwapsFile] (by decide) (by decide)).2.trans
    (by decide)⟩

/-- C5: getContextsByType t is the subsequence of getAllContexts with type
t; over all enumerated types these filter classes partition getAllContexts:
every record lands in the class of its own type, class sizes sum to the
total, and no record lies in two classes of different types. -/
theorem listByType_partitions_listAll (m : RegistryState) (t : ContextType) :
    getContextsByType m t = (getAllContexts m).filter (fun r => r.type = t)
    ∧ (∀ r, r ∈ getContextsByType m t ↔ r ∈ getAllContexts m ∧ r.type = t)
    ∧ (ContextType.all.map (fun u => (getContextsByType m u).length)).sum
        = (getAllContexts m).length
    ∧ (∀ u r, r ∈ getContextsByType m t → r ∈ getContextsByType m u → u = t) := by
  refine ⟨rfl, fun r => ?_, ?_, fun u r h1 h2 => ?_⟩
  · simp [getContextsByType, List.mem_filter]
  · simpa [getContextsByType] using filter_type_length_sum (getAllContexts m)
  · simp [getContextsByType, List.mem_filter] at h1 h2
    exact h2.2.symm.trans h1.2

theorem listByType_partitions_witness :
    (ContextType.all.map (fun u =>
        (getContextsByType [(tokenSwapsDef.id, tokenSwapsDef),
          (magicEdenDef.id, magicEdenDef)] u).length)).sum
      = (getAllContexts [(tokenSwapsDef.id, tokenSwapsDef),
          (magicEdenDef.id, magicEdenDef)]).length :=
  (listByType_partitions_listAll
    [(tokenSwapsDef.id, tokenSwapsDef), (magicEdenDef.id, magicEdenDef)]
    ContextType.dex).2.2.1

/-- C6: getContext on an id bound by no entry of the registry returns none
(the embedding of the null return); it is a total function, so absence is a
typed result, never a raised error. -/
theorem lookup_absent_returns_none (m : RegistryState) (id : String)
    (h : ∀ e ∈ m, e.1 ≠ id) : getContext m id = none := by
  induction m with
  | nil => rfl
  | cons e rest ih =>
    obtain ⟨k, v⟩ := e
    have hk : ¬ (k = id) := h (k, v) (List.mem_cons_self _ _)
    show mapGet ((k, v) :: rest) id = none
    simp only [mapGet, hk, if_false]
    exact ih (fun e1 he => h e1 (List.mem_cons_of_mem _ he))

theorem lookup_absent_witness :
    getContext [(tokenSwapsDef.id, tokenSwapsDef)] "nonexistent-id" = none :=
  lookup_absent_returns_none [(tokenSwapsDef.id, tokenSwapsDef)] "nonexistent-id"
    (by decide)

/-- C7: when the descriptor directory does not exist, loadContexts yields
an empty registry, fires the warning, and reaches no error path; it is a
total function, so construction succeeds with no fatal error. -/
theorem missing_directory_initializes_empty :
    (loadContexts none).contexts = []
    ∧ (loadContexts none).warnedMissing = true
    ∧ (loadContexts none).loggedError = false :=
  ⟨rfl, rfl, rfl⟩

/-- C8: the try body of registerContext never produces an error value, and
registerContext returns a typed result to its caller: the catch handler is
the only exit on an error, so no exception propagates. -/
theorem register_never_throws (m : RegistryState) (r : ContextDefinition)
    (a : PublicKey) :
    (∀ e, registerContextTry m r a ≠ Except.error e)
    ∧ registerContext m r a = (some newContextId, mapSet m r.id r) :=
  ⟨fun _ h => Except.noConfusion h, rfl⟩

theorem register_never_throws_witness :
    registerContext [] tokenSwapsDef "auth-key"
      = (some newContextId, mapSet [] tokenSwapsDef.id tokenSwapsDef) :=
  (register_never_throws [] tokenSwapsDef "auth-key").2

/-- C9: checkPermission grants permission for every agent identity and
every context id (the reference stub allows all access). -/
theorem checkPermission_always_true (agentId : PublicKey) (contextId : String) :
    checkPermission agentId contextId = true :=
  rfl

/-- C10: every successful registerContext call returns the one hard-coded
public key G6xptnrkj3Z3JegB3EqJPGqnVBKGLQXTqpEL9kHpMZN5, so any two
successful calls return equal identifiers: the reference is not fresh. -/
theorem register_returns_fixed_id (m1 : RegistryState) (r1 : ContextDefinition)
    (a1 : PublicKey) (m2 : RegistryState) (r2 : ContextDefinition) (a2 : PublicKey) :
    (registerContext m1 r1 a1).1 = some newContextId
    ∧ (registerContext m1 r1 a1).1 = (registerContext m2 r2 a2).1 :=
  ⟨rfl, rfl⟩

end MCP
